import Mathlib

/-!
# Verification of the ethdo deposit-data input pipeline

Shallow embedding of the deposit-data construction pipeline of the ethdo
repository, covering:

* `cmd/validator/depositdata/input.go` : the `input` function gathering and
  validating all data needed to build deposit data (validator accounts,
  withdrawal credentials, amount, fork version, signing domain);
* `cmd/root.go` : the helpers `bestPublicKey` and `walletAndAccountsFromPath`.

Byte strings are embedded as `List Nat` (each entry a byte value), machine
integers as `Nat` with explicit reduction `% 2 ^ 32` (resp. `% 2 ^ 64`) where
the Go code relies on fixed-width arithmetic.  Fallible Go functions returning
`(T, error)` become `Except String T`, with the `errors.Wrap(err, msg)`
convention rendered as `msg ++ ": " ++ err`.

External collaborators that the core only calls (wallet stores, the gRPC
beacon-node client, the BLS library's point validation, the ETH-string
parser) are supplied through an explicit environment record `Env`, so that
dependence or non-dependence of the core on a collaborator is provable.
-/

deriving instance DecidableEq for Except

namespace Ethdo

/-! ## SHA-256 (embedding of `util.SHA256`, i.e. Go's `crypto/sha256`)

A complete, executable SHA-256 over byte lists.  Words are `Nat` reduced
modulo `2 ^ 32`.  The compression state is a record of eight words so that
the digest is by construction a 32-byte list. -/

/-- Right rotation of a 32-bit word held in a `Nat`. -/
def rotr32 (x n : Nat) : Nat :=
  (x >>> n ||| x <<< (32 - n)) % 4294967296

/-- SHA-256 small sigma 0. -/
def ssig0 (x : Nat) : Nat := rotr32 x 7 ^^^ rotr32 x 18 ^^^ x >>> 3

/-- SHA-256 small sigma 1. -/
def ssig1 (x : Nat) : Nat := rotr32 x 17 ^^^ rotr32 x 19 ^^^ x >>> 10

/-- SHA-256 big sigma 0. -/
def bsig0 (x : Nat) : Nat := rotr32 x 2 ^^^ rotr32 x 13 ^^^ rotr32 x 22

/-- SHA-256 big sigma 1. -/
def bsig1 (x : Nat) : Nat := rotr32 x 6 ^^^ rotr32 x 11 ^^^ rotr32 x 25

/-- SHA-256 choice function (`¬x` taken within 32 bits). -/
def chFn (x y z : Nat) : Nat := (x &&& y) ^^^ ((x ^^^ 4294967295) &&& z)

/-- SHA-256 majority function. -/
def majFn (x y z : Nat) : Nat := (x &&& y) ^^^ (x &&& z) ^^^ (y &&& z)

/-- The 64 SHA-256 round constants of FIPS 180-4 (decimal), `K[0]` first. -/
def roundK : List Nat :=
  [1116352408, 1899447441, 3049323471, 3921009573, 961987163, 1508970993,
   2453635748, 2870763221, 3624381080, 310598401, 607225278, 1426881987,
   1925078388, 2162078206, 2614888103, 3248222580, 3835390401, 4022224774,
   264347078, 604807628, 770255983, 1249150122, 1555081692, 1996064986,
   2554220882, 2821834349, 2952996808, 3210313671, 3336571891, 3584528711,
   113926993, 338241895, 666307205, 773529912, 1294757372, 1396182291,
   1695183700, 1986661051, 2177026350, 2456956037, 2730485921, 2820302411,
   3259730800, 3345764771, 3516065817, 3600352804, 4094571909, 275423344,
   430227734, 506948616, 659060556, 883997877, 958139571, 1322822218,
   1537002063, 1747873779, 1955562222, 2024104815, 2227730452, 2361852424,
   2428436474, 2756734187, 3204031479, 3329325298]

/-- The eight-word SHA-256 compression state. -/
structure Hash8 where
  a : Nat
  b : Nat
  c : Nat
  d : Nat
  e : Nat
  f : Nat
  g : Nat
  h : Nat
deriving DecidableEq, Repr

/-- SHA-256 initial state: the eight initial hash values of FIPS 180-4
(decimal), `H[0]` first. -/
def sha256Init : Hash8 :=
  ⟨1779033703, 3144134277, 1013904242, 2773480762,
   1359893119, 2600822924, 528734635, 1541459225⟩

/-- One SHA-256 round: consume one `(schedule word, round constant)` pair. -/
def sha256Round (st : Hash8) (wk : Nat × Nat) : Hash8 :=
  let t1 := (st.h + bsig1 st.e + chFn st.e st.f st.g + wk.2 + wk.1) % 4294967296
  let t2 := (bsig0 st.a + majFn st.a st.b st.c) % 4294967296
  ⟨(t1 + t2) % 4294967296, st.a, st.b, st.c, (st.d + t1) % 4294967296, st.e, st.f, st.g⟩

/-- Extend the message schedule: `n` more words, list held newest-first. -/
def extendSchedule : Nat → List Nat → List Nat
  | 0, wrev => wrev
  | n + 1, wrev =>
    let nw := (wrev.getD 15 0 + ssig0 (wrev.getD 14 0) + wrev.getD 6 0
                + ssig1 (wrev.getD 1 0)) % 4294967296
    extendSchedule n (nw :: wrev)

/-- Big-endian 32-bit words from a byte list (groups of four; remainder dropped —
the input is always a whole number of words). -/
def toWords : List Nat → List Nat
  | a :: b :: c :: d :: rest => (a <<< 24 ||| b <<< 16 ||| c <<< 8 ||| d) :: toWords rest
  | _ => []

/-- Process one 16-word chunk of the message schedule. -/
def sha256Chunk (st : Hash8) (w16 : List Nat) : Hash8 :=
  let w := (extendSchedule 48 w16.reverse).reverse
  let r := (w.zip roundK).foldl sha256Round st
  ⟨(st.a + r.a) % 4294967296, (st.b + r.b) % 4294967296,
   (st.c + r.c) % 4294967296, (st.d + r.d) % 4294967296,
   (st.e + r.e) % 4294967296, (st.f + r.f) % 4294967296,
   (st.g + r.g) % 4294967296, (st.h + r.h) % 4294967296⟩

/-- Process the padded message, sixteen words at a time (structural recursion,
peeling sixteen words per step). -/
def sha256Words (st : Hash8) : List Nat → Hash8
  | w0 :: w1 :: w2 :: w3 :: w4 :: w5 :: w6 :: w7 ::
    w8 :: w9 :: w10 :: w11 :: w12 :: w13 :: w14 :: w15 :: rest =>
    sha256Words (sha256Chunk st [w0, w1, w2, w3, w4, w5, w6, w7,
                                 w8, w9, w10, w11, w12, w13, w14, w15]) rest
  | _ => st

/-- Big-endian 8-byte encoding of a 64-bit length. -/
def len64Bytes (n : Nat) : List Nat :=
  [n >>> 56 % 256, n >>> 48 % 256, n >>> 40 % 256, n >>> 32 % 256,
   n >>> 24 % 256, n >>> 16 % 256, n >>> 8 % 256, n % 256]

/-- SHA-256 padding: `0x80`, zeros to 56 mod 64, then the bit length. -/
def sha256Pad (msg : List Nat) : List Nat :=
  msg ++ 0x80 :: List.replicate ((64 - (msg.length + 9) % 64) % 64) 0
      ++ len64Bytes (msg.length * 8 % 18446744073709551616)

/-- Big-endian 4-byte serialisation of a 32-bit word. -/
def wordBytes (w : Nat) : List Nat :=
  [w >>> 24 % 256, w >>> 16 % 256, w >>> 8 % 256, w % 256]

/-- Serialise the final state into the 32-byte digest. -/
def digestBytes (st : Hash8) : List Nat :=
  wordBytes st.a ++ wordBytes st.b ++ wordBytes st.c ++ wordBytes st.d ++
  wordBytes st.e ++ wordBytes st.f ++ wordBytes st.g ++ wordBytes st.h

/-- SHA-256 of a byte list. -/
def sha256 (msg : List Nat) : List Nat :=
  digestBytes (sha256Words sha256Init (toWords (sha256Pad msg)))

theorem sha256_length (msg : List Nat) : (sha256 msg).length = 32 := by
  simp [sha256, digestBytes, wordBytes]

/-- FIPS 180-4 test vector: the digest of the empty message. -/
theorem sha256_empty_vector :
    sha256 [] =
      [0xe3, 0xb0, 0xc4, 0x42, 0x98, 0xfc, 0x1c, 0x14,
       0x9a, 0xfb, 0xf4, 0xc8, 0x99, 0x6f, 0xb9, 0x24,
       0x27, 0xae, 0x41, 0xe4, 0x64, 0x9b, 0x93, 0x4c,
       0xa4, 0x95, 0x99, 0x1b, 0x78, 0x52, 0xb8, 0x55] := by decide

/-- FIPS 180-4 test vector: the digest of `"abc"`. -/
theorem sha256_abc_vector :
    sha256 [0x61, 0x62, 0x63] =
      [0xba, 0x78, 0x16, 0xbf, 0x8f, 0x01, 0xcf, 0xea,
       0x41, 0x41, 0x40, 0xde, 0x5d, 0xae, 0x22, 0x23,
       0xb0, 0x03, 0x61, 0xa3, 0x96, 0x17, 0x7a, 0x9c,
       0xb4, 0x10, 0xff, 0x61, 0xf2, 0x00, 0x15, 0xad] := by decide

/-! ## Hex decoding (embedding of Go's `encoding/hex.DecodeString`) -/

/-- Value of one hexadecimal digit, if valid. -/
def hexDigit (c : Char) : Option Nat :=
  if '0' ≤ c ∧ c ≤ '9' then some (c.toNat - '0'.toNat)
  else if 'a' ≤ c ∧ c ≤ 'f' then some (c.toNat - 'a'.toNat + 10)
  else if 'A' ≤ c ∧ c ≤ 'F' then some (c.toNat - 'A'.toNat + 10)
  else none

/-- Decode pairs of hex digits into bytes; `none` on an odd length or an
invalid digit, as `hex.DecodeString` errors in those cases. -/
def hexDecodeChars : List Char → Option (List Nat)
  | [] => some []
  | [_] => none
  | hi :: lo :: rest =>
    match hexDigit hi, hexDigit lo, hexDecodeChars rest with
    | some x, some y, some bs => some ((16 * x + y) :: bs)
    | _, _, _ => none

/-- `hex.DecodeString` over a Lean string. -/
def hexDecode (s : String) : Option (List Nat) :=
  hexDecodeChars s.toList

/-- Embedding of `strings.TrimPrefix(s, "0x")`: drop a leading `0x` when
present. -/
def trim0x (s : String) : String :=
  match s.toList with
  | '0' :: 'x' :: rest => String.mk rest
  | _ => s

/-! ## Accounts and `bestPublicKey` (from `cmd/root.go`)

A wallet account is embedded by its name plus its two optional public-key
capabilities.  In Go these capabilities are discovered by runtime type
assertions (`account.(e2wtypes.AccountCompositePublicKeyProvider)` and
`account.(e2wtypes.AccountPublicKeyProvider)`); here an account implements a
capability exactly when the corresponding field is `some`.  Public keys are
embedded by their marshalled byte serialisation (`PublicKey.Marshal`). -/

/-- A wallet account: its name and its optional public-key capabilities. -/
structure Account where
  name : String
  compositePublicKey : Option (List Nat)
  publicKey : Option (List Nat)
deriving DecidableEq, Repr

/-- Embedding of `bestPublicKey` (`cmd/root.go`): prefer the composite public
key if the account provides one, else the plain public key, else fail. -/
def bestPublicKey (account : Account) : Except String (List Nat) :=
  match account.compositePublicKey with
  | some pubKey => .ok pubKey
  | none =>
    match account.publicKey with
    | some pubKey => .ok pubKey
    | none => .error "account does not provide a public key"

/-! ## Regular expressions (embedding of the `regexp` usage in
`walletAndAccountsFromPath`)

`walletAndAccountsFromPath` compiles the account part of the path with
`regexp.MustCompile` and selects accounts by `re.Match`.  The fragment of
Go regular-expression syntax that account specifications use is embedded
here: literal characters, `.`, postfix `*`, alternation `|` (lowest
precedence, as in Go), and the anchors `^` and `$`.  Under
`regexp.MustCompile`'s default flags `.` does not match a newline (`DotNL`
off) and the anchors match only the beginning and end of the text
(`OneLine`); `re.Match` is an unanchored search: it succeeds if any span of
the text matches. -/

/-- Regular-expression abstract syntax. `anchorA` is `^`, `anchorZ` is `$`. -/
inductive Regex
  | eps
  | chr (c : Char)
  | dot
  | star (r : Regex)
  | cat (r1 r2 : Regex)
  | alt (r1 r2 : Regex)
  | anchorA
  | anchorZ
deriving DecidableEq, Repr

/-- `matchSpan s r i j` : the span `[i, j)` of text `s` matches `r`.
Anchors are width-zero and positional, and `.` matches any character except
a newline, as under Go's default flags. -/
def matchSpan (s : List Char) : Regex → Nat → Nat → Bool
  | .eps, i, j => i == j
  | .chr c, i, j => j == i + 1 && s[i]? == some c
  | .dot, i, j => j == i + 1 && (s[i]?).isSome && s[i]? != some '\n'
  | .anchorA, i, j => i == j && i == 0
  | .anchorZ, i, j => i == j && i == s.length
  | .alt r1 r2, i, j => matchSpan s r1 i j || matchSpan s r2 i j
  | .cat r1 r2, i, j => (List.range (j + 1)).any fun k => matchSpan s r1 i k && matchSpan s r2 k j
  | .star r, i, j => i == j || (List.range (j + 1)).any fun k =>
      if _h : i < k ∧ k ≤ j then matchSpan s r i k && matchSpan s (.star r) k j else false
termination_by r i j => (sizeOf r, j - i)
decreasing_by
  all_goals simp_wf
  all_goals first
    | exact Prod.Lex.left _ _ (by omega)
    | exact Prod.Lex.right _ (by omega)

/-- Embedding of `re.Match`: some span of the text matches (unanchored
search; spans are searched up to the text length). -/
def reMatch (r : Regex) (s : List Char) : Bool :=
  (List.range (s.length + 1)).any fun i =>
    (List.range (s.length + 1)).any fun j => matchSpan s r i j

/-- The whole text matches (the span is the full string). -/
def fullMatch (r : Regex) (s : List Char) : Bool :=
  matchSpan s r 0 s.length

/-- Split a pattern at top-level `|` (the embedded fragment has no groups,
so every `|` is top-level, with lowest precedence, as in Go). -/
def splitAlt : List Char → List (List Char)
  | [] => [[]]
  | '|' :: rest => [] :: splitAlt rest
  | c :: rest =>
    match splitAlt rest with
    | [] => [[c]]
    | g :: gs => (c :: g) :: gs

/-- Characters of the Go syntax outside the embedded fragment. -/
def unsupportedChar (c : Char) : Bool :=
  c == '(' || c == ')' || c == '[' || c == ']' || c == '\x7b' || c == '\x7d' ||
  c == '+' || c == '?' || c == '\\' || c == '|'

/-- Parse one alternation-free branch into its atom list; postfix `*`
applies to the preceding atom (`acc` holds atoms newest-first). -/
def parseAtoms : List Char → List Regex → Option (List Regex)
  | [], acc => some acc.reverse
  | '*' :: rest, a :: acc => parseAtoms rest (.star a :: acc)
  | '*' :: _, [] => none
  | '^' :: rest, acc => parseAtoms rest (.anchorA :: acc)
  | '$' :: rest, acc => parseAtoms rest (.anchorZ :: acc)
  | '.' :: rest, acc => parseAtoms rest (.dot :: acc)
  | c :: rest, acc =>
    if unsupportedChar c then none else parseAtoms rest (.chr c :: acc)

/-- Right-nested concatenation of an atom list. -/
def catList : List Regex → Regex
  | [] => .eps
  | [r] => r
  | r :: rest => .cat r (catList rest)

/-- Parse every branch. -/
def parseBranches : List (List Char) → Option (List Regex)
  | [] => some []
  | b :: bs =>
    match parseAtoms b [], parseBranches bs with
    | some atoms, some rs => some (catList atoms :: rs)
    | _, _ => none

/-- Embedding of `regexp.MustCompile` for the fragment: split at top-level
`|`, parse each branch, fold with alternation. -/
def compileRegex (s : String) : Option Regex :=
  match parseBranches (splitAlt s.toList) with
  | some (r :: rs) => some (rs.foldl .alt r)
  | _ => none

/-! ## Path resolution (`walletAndAccountsFromPath`, `cmd/root.go`)

The wallet itself is opened by `walletFromPath` through the external store
collaborator; it is embedded as a given `Wallet` value holding the accounts
the store yields (in the store's own, arbitrary, order).  `sort.Slice` with
the comparison `accounts[i].Name() < accounts[j].Name()` is embedded as
`List.insertionSort` under the byte-wise (code-point-wise) lexicographic
order on names. -/

/-- A wallet: the accounts it yields, in the order the store yields them. -/
structure Wallet where
  accounts : List Account
deriving DecidableEq, Repr

/-- Byte-wise lexicographic order on character lists (Go `string` `<` / `≤`). -/
def charsLe : List Char → List Char → Bool
  | [], _ => true
  | _ :: _, [] => false
  | a :: as, b :: bs =>
    if a.toNat < b.toNat then true
    else if b.toNat < a.toNat then false
    else charsLe as bs

/-- Name order on accounts, as used by the `sort.Slice` call. -/
def nameLe (a b : Account) : Prop :=
  charsLe a.name.toList b.name.toList = true

instance : DecidableRel nameLe := fun a b => by unfold nameLe; infer_instance

/-- The `sort.Slice(accounts, ...Name() < ...Name())` call: sort by name. -/
def sortByName (accounts : List Account) : List Account :=
  List.insertionSort nameLe accounts

/-- Modelled from the spec: `e2wallet.WalletAndAccountNames` (external wallet
library, not under `src/`) splits a path of the form `wallet/account` at its
first slash into the wallet name and the account specification; the account
part may be empty; an empty path is invalid.  Split of the character list at
the first `/`. -/
def splitSlash : List Char → List Char × List Char
  | [] => ([], [])
  | '/' :: rest => ([], rest)
  | c :: rest =>
    let p := splitSlash rest
    (c :: p.1, p.2)

/-- Modelled from the spec: `e2wallet.WalletAndAccountNames` over strings. -/
def walletAndAccountNames (path : String) : Except String (String × String) :=
  if path = "" then .error "invalid account format"
  else
    let p := splitSlash path.toList
    .ok (String.mk p.1, String.mk p.2)

/-- The pattern string built by `walletAndAccountsFromPath` (`cmd/root.go`
lines 343–347): an empty account specification defaults to `^.*$`, any other
is textually wrapped as `^spec$`. -/
def specPattern (accountSpec : String) : String :=
  if accountSpec = "" then "^.*$" else "^" ++ accountSpec ++ "$"

/-- Embedding of `walletAndAccountsFromPath` (`cmd/root.go`): obtain the
account specification from the path, build and compile the pattern
(`specPattern`), select the wallet's accounts whose names match, and sort
the selection by name.  The wallet opening (`walletFromPath`, an external
store concern) is the given `wallet`; `regexp.MustCompile` panics on a bad
pattern, embedded as an error. -/
def walletAndAccountsFromPath (wallet : Wallet) (path : String) :
    Except String (List Account) :=
  match walletAndAccountNames path with
  | .error e => .error ("failed to obtain account specification: " ++ e)
  | .ok (_, accountSpec) =>
    match compileRegex (specPattern accountSpec) with
    | none => .error "invalid regular expression"
    | some re =>
      .ok (sortByName (wallet.accounts.filter fun account =>
        reMatch re account.name.toList))

/-! ## Signing domain (embedding of `e2types.Domain`)

Modelled from the spec: `e2types.Domain` (external `go-eth2-types` library,
not under `src/`) computes the 32-byte domain as the 4-byte domain type
followed by the first 28 bytes of the fork-data root, where the fork-data
root is the SSZ hash-tree-root of `{current version, genesis validators
root}`: the SHA-256 of the version padded to 32 bytes followed by the root. -/

/-- Fork-data root: SHA-256 of the two 32-byte SSZ chunks. -/
def forkDataRoot (currentVersion genesisValidatorsRoot : List Nat) : List Nat :=
  sha256 ((currentVersion ++ List.replicate (32 - currentVersion.length) 0)
          ++ genesisValidatorsRoot)

/-- `e2types.Domain`: domain type, fork version, genesis validators root. -/
def computeDomain (domainType forkVersion genesisValidatorsRoot : List Nat) : List Nat :=
  domainType.take 4 ++ (forkDataRoot forkVersion genesisValidatorsRoot).take 28

/-- `e2types.DomainDeposit` : `DOMAIN_DEPOSIT = 0x03000000`. -/
def DomainDeposit : List Nat := [3, 0, 0, 0]

/-- `e2types.ZeroGenesisValidatorsRoot` : the all-zero root. -/
def ZeroGenesisValidatorsRoot : List Nat := List.replicate 32 0

/-! ## The `input` function (`cmd/validator/depositdata/input.go`) -/

/-- The viper configuration values `input` reads. -/
structure Config where
  validatoraccount : String
  launchpad : Bool
  raw : Bool
  withdrawalaccount : String
  withdrawalpubkey : String
  depositvalue : String
  forkversion : String
deriving DecidableEq, Repr

/-- The external collaborators `input` calls.

* `walletAndAccountsFromPath` : `core.WalletAndAccountsFromPath` (wallet and
  store resolution; its account-matching logic is verified separately via the
  `cmd/root.go` `walletAndAccountsFromPath` embedding above);
* `walletAndAccountFromPath` : `core.WalletAndAccountFromPath`;
* `blsPubKeyValid` : success of `e2types.BLSPublicKeyFromBytes` on a 48-byte
  string (curve/point validation; `Marshal` of the parsed key returns the
  input bytes again);
* `stringToGWei` : `string2eth.StringToGWei`, the ETH-string parser;
* `connect` : `grpc.Connect`;
* `fetchChainConfig` : `grpc.FetchChainConfig` followed by the lookup of its
  `GenesisForkVersion` entry — `.ok none` is a config without that key. -/
structure Env where
  walletAndAccountsFromPath : String → Except String (List Account)
  walletAndAccountFromPath : String → Except String Account
  blsPubKeyValid : List Nat → Bool
  stringToGWei : String → Except String Nat
  connect : Except String Unit
  fetchChainConfig : Except String (Option (List Nat))

/-- The `dataIn` record assembled by `input`. -/
structure DataIn where
  format : String
  withdrawalCredentials : List Nat
  amount : Nat
  validatorAccounts : List Account
  forkVersion : List Nat
  domain : List Nat
deriving DecidableEq, Repr

/-- The `withdrawalCredentials[0] = byte(0)` assignment (`BLS_WITHDRAWAL_PREFIX`;
the operand is always the 32-byte SHA-256 output, never empty). -/
def setByte0 : List Nat → List Nat
  | [] => []
  | _ :: rest => 0 :: rest

/-- The withdrawal `switch` of `input` (`input.go` lines 67–95): a withdrawal
account reference takes the first case, else a raw public key, else an error;
both public-key paths end in `util.SHA256` of the marshalled key. -/
def withdrawalCreds (c : Config) (env : Env) : Except String (List Nat) :=
  if c.withdrawalaccount ≠ "" then
    match env.walletAndAccountFromPath c.withdrawalaccount with
    | .error e => .error ("failed to obtain withdrawal account: " ++ e)
    | .ok withdrawalAccount =>
      match bestPublicKey withdrawalAccount with
      | .error e => .error ("failed to obtain public key for withdrawal account: " ++ e)
      | .ok pubKey => .ok (sha256 pubKey)
  else if c.withdrawalpubkey ≠ "" then
    match hexDecode (trim0x c.withdrawalpubkey) with
    | none => .error "failed to decode withdrawal public key"
    | some withdrawalPubKeyBytes =>
      if withdrawalPubKeyBytes.length ≠ 48 then
        .error "withdrawal public key must be exactly 48 bytes in length"
      else if env.blsPubKeyValid withdrawalPubKeyBytes then
        .ok (sha256 withdrawalPubKeyBytes)
      else .error "withdrawal public key is not valid"
  else .error "withdrawalaccount or withdrawal public key is required"

/-- The fork-version resolution of `input` (`input.go` lines 111–133): an
explicitly supplied fork version is hex-decoded and must be 4 bytes; otherwise
the chain is queried through `grpc.Connect` / `grpc.FetchChainConfig` and the
`GenesisForkVersion` entry is used. -/
def resolveForkVersion (c : Config) (env : Env) : Except String (List Nat) :=
  if c.forkversion ≠ "" then
    match hexDecode (trim0x c.forkversion) with
    | none => .error "failed to decode fork version"
    | some forkVersion =>
      if forkVersion.length ≠ 4 then
        .error "fork version must be exactly 4 bytes in length"
      else .ok forkVersion
  else
    match env.connect with
    | .error e => .error ("failed to connect to beacon node: " ++ e)
    | .ok _ =>
      match env.fetchChainConfig with
      | .error e => .error ("could not connect to beacon node; supply a connection with --connection or provide a fork version with --forkversion to generate deposit data: " ++ e)
      | .ok none => .error "failed to obtain genesis fork version"
      | .ok (some genesisForkVersion) => .ok genesisForkVersion

/-- Lines 99–136 of `input.go`: deposit-value presence and parsing, the
minimum-deposit check, fork-version resolution, the deposit-domain
computation with the zero genesis validators root, and final assembly. -/
def finishInput (c : Config) (env : Env) (format : String)
    (validatorAccounts : List Account) (withdrawalCredentials : List Nat) :
    Except String DataIn :=
  if c.depositvalue = "" then .error "deposit value is required"
  else
    match env.stringToGWei c.depositvalue with
    | .error e => .error ("deposit value is invalid: " ++ e)
    | .ok amount =>
      if amount < 1000000000 then .error "deposit value must be at least 1 Ether"
      else
        match resolveForkVersion c env with
        | .error e => .error e
        | .ok forkVersion =>
          .ok { format := format
                withdrawalCredentials := withdrawalCredentials
                amount := amount
                validatorAccounts := validatorAccounts
                forkVersion := forkVersion
                domain := computeDomain DomainDeposit forkVersion
                            ZeroGenesisValidatorsRoot }

/-- Embedding of `input` (`input.go`): validator-account resolution, output
format selection, withdrawal credentials (byte 0 forced to the BLS withdrawal
prefix), then the remaining stages (`finishInput`). -/
def input (c : Config) (env : Env) : Except String DataIn :=
  if c.validatoraccount = "" then .error "validator account is required"
  else
    match env.walletAndAccountsFromPath c.validatoraccount with
    | .error _ => .error "failed to obtain validator account"
    | .ok validatorAccounts =>
      if validatorAccounts.length = 0 then .error "unknown validator account"
      else
        let format := if c.launchpad then "launchpad"
                      else if c.raw then "raw" else "json"
        match withdrawalCreds c env with
        | .error e => .error e
        | .ok creds => finishInput c env format validatorAccounts (setByte0 creds)

/-! ## Properties of the name order and of `sortByName` -/

theorem charsLe_total (x y : List Char) : charsLe x y = true ∨ charsLe y x = true := by
  induction x generalizing y with
  | nil => left; rfl
  | cons a as ih =>
    cases y with
    | nil => right; rfl
    | cons b bs =>
      simp only [charsLe]
      rcases Nat.lt_trichotomy a.toNat b.toNat with h | h | h
      · left; simp [h]
      · have h1 : ¬ a.toNat < b.toNat := by omega
        have h2 : ¬ b.toNat < a.toNat := by omega
        simpa [h1, h2] using ih bs
      · right; simp [h]

theorem charsLe_trans {x y z : List Char} (hxy : charsLe x y = true)
    (hyz : charsLe y z = true) : charsLe x z = true := by
  induction x generalizing y z with
  | nil => rfl
  | cons a as ih =>
    cases y with
    | nil => simp [charsLe] at hxy
    | cons b bs =>
      cases z with
      | nil => simp [charsLe] at hyz
      | cons c cs =>
        simp only [charsLe] at hxy hyz ⊢
        rcases Nat.lt_trichotomy a.toNat b.toNat with hab | hab | hab <;>
          rcases Nat.lt_trichotomy b.toNat c.toNat with hbc | hbc | hbc <;>
          first
            | (exfalso; revert hxy; simp [hab]; omega)
            | (exfalso; revert hyz; simp [hbc]; omega)
            | (simp only [if_pos (by omega : a.toNat < c.toNat)])
            | (have h1 : ¬ a.toNat < c.toNat := by omega
               have h2 : ¬ c.toNat < a.toNat := by omega
               have h3 : ¬ a.toNat < b.toNat := by omega
               have h4 : ¬ b.toNat < a.toNat := by omega
               have h5 : ¬ b.toNat < c.toNat := by omega
               have h6 : ¬ c.toNat < b.toNat := by omega
               simp only [if_neg h1, if_neg h2]
               exact ih (by simpa [h3, h4] using hxy) (by simpa [h5, h6] using hyz))

theorem charsLe_antisymm {x y : List Char} (hxy : charsLe x y = true)
    (hyx : charsLe y x = true) : x = y := by
  induction x generalizing y with
  | nil =>
    cases y with
    | nil => rfl
    | cons b bs => simp [charsLe] at hyx
  | cons a as ih =>
    cases y with
    | nil => simp [charsLe] at hxy
    | cons b bs =>
      simp only [charsLe] at hxy hyx
      rcases Nat.lt_trichotomy a.toNat b.toNat with h | h | h
      · exfalso; revert hyx; simp [h]; omega
      · have h1 : ¬ a.toNat < b.toNat := by omega
        have h2 : ¬ b.toNat < a.toNat := by omega
        have : a = b := Char.ext (UInt32.ext h)
        subst this
        simp only [if_neg h1, if_neg h2] at hxy hyx
        rw [ih hxy hyx]
      · exfalso; revert hxy; simp [h]; omega

instance : IsTotal Account nameLe :=
  ⟨fun a b => charsLe_total a.name.toList b.name.toList⟩

instance : IsTrans Account nameLe :=
  ⟨fun _ _ _ => charsLe_trans⟩

/-- `sortByName` yields a list sorted by name. -/
theorem sortByName_sorted (accounts : List Account) :
    List.Sorted nameLe (sortByName accounts) :=
  List.sorted_insertionSort nameLe accounts

/-- `sortByName` is a permutation of its input. -/
theorem sortByName_perm (accounts : List Account) :
    (sortByName accounts).Perm accounts :=
  List.perm_insertionSort nameLe accounts

/-- The string order underlying `nameLe`. -/
def strLe (x y : String) : Prop := charsLe x.toList y.toList = true

instance : IsAntisymm String strLe :=
  ⟨fun x y hxy hyx => by
    have := charsLe_antisymm hxy hyx
    cases x; cases y; simp only [String.toList] at this; exact congrArg String.mk this⟩

instance : IsTrans String strLe :=
  ⟨fun _ _ _ => charsLe_trans⟩

/-! ## Properties of the regular-expression matcher -/

theorem matchSpan_cat_iff (s : List Char) (r1 r2 : Regex) (i j : Nat) :
    matchSpan s (.cat r1 r2) i j = true ↔
      ∃ k, k ≤ j ∧ matchSpan s r1 i k = true ∧ matchSpan s r2 k j = true := by
  rw [matchSpan]
  simp [List.any_eq_true, Nat.lt_succ_iff, and_assoc]

theorem matchSpan_anchorA_iff (s : List Char) (i j : Nat) :
    matchSpan s .anchorA i j = true ↔ i = j ∧ i = 0 := by
  rw [matchSpan]; simp

theorem matchSpan_anchorZ_iff (s : List Char) (i j : Nat) :
    matchSpan s .anchorZ i j = true ↔ i = j ∧ i = s.length := by
  rw [matchSpan]; simp

theorem matchSpan_star_iff (s : List Char) (r : Regex) (i j : Nat) :
    matchSpan s (.star r) i j = true ↔
      i = j ∨ ∃ k, i < k ∧ k ≤ j ∧ matchSpan s r i k = true ∧
        matchSpan s (.star r) k j = true := by
  rw [matchSpan]
  simp only [Bool.or_eq_true, beq_iff_eq, List.any_eq_true, List.mem_range,
    Nat.lt_succ_iff]
  constructor
  · rintro (h | ⟨k, hk, hcond⟩)
    · exact Or.inl h
    · rw [dite_eq_ite] at hcond
      by_cases hb : i < k ∧ k ≤ j
      · rw [if_pos hb] at hcond
        simp only [Bool.and_eq_true] at hcond
        exact Or.inr ⟨k, hb.1, hb.2, hcond.1, hcond.2⟩
      · rw [if_neg hb] at hcond; cases hcond
  · rintro (h | ⟨k, h1, h2, h3, h4⟩)
    · exact Or.inl h
    · refine Or.inr ⟨k, h2, ?_⟩
      rw [dif_pos ⟨h1, h2⟩]
      simp [h3, h4]

/-- `reMatch` of a pattern anchored on both sides, in the abstract-syntax
sense `^ (r) $`, is exactly the full match of `r`: no proper substring can
be selected. -/
theorem reMatch_anchored (r : Regex) (s : List Char) :
    reMatch (.cat .anchorA (.cat r .anchorZ)) s = fullMatch r s := by
  cases hb : fullMatch r s with
  | true =>
    unfold reMatch
    simp only [List.any_eq_true, List.mem_range, Nat.lt_succ_iff]
    refine ⟨0, Nat.zero_le _, s.length, Nat.le_refl _, ?_⟩
    rw [matchSpan_cat_iff]
    refine ⟨0, Nat.zero_le _, ?_, ?_⟩
    · rw [matchSpan_anchorA_iff]; exact ⟨rfl, rfl⟩
    · rw [matchSpan_cat_iff]
      refine ⟨s.length, Nat.le_refl _, hb, ?_⟩
      rw [matchSpan_anchorZ_iff]; exact ⟨rfl, rfl⟩
  | false =>
    rw [Bool.eq_false_iff]
    intro hcontra
    unfold reMatch at hcontra
    simp only [List.any_eq_true, List.mem_range, Nat.lt_succ_iff] at hcontra
    obtain ⟨i, _, j, _, hm⟩ := hcontra
    rw [matchSpan_cat_iff] at hm
    obtain ⟨k, _, hA, hm2⟩ := hm
    rw [matchSpan_anchorA_iff] at hA
    obtain ⟨rfl, rfl⟩ := hA
    rw [matchSpan_cat_iff] at hm2
    obtain ⟨m, _, hr, hZ⟩ := hm2
    rw [matchSpan_anchorZ_iff] at hZ
    obtain ⟨rfl, rfl⟩ := hZ
    unfold fullMatch at hb
    rw [hb] at hr
    cases hr

/-- `.*` matches the tail span `[i, length)` exactly when that tail
contains no newline: `.` cannot cross a newline, and nothing else can
consume it. -/
theorem starDot_matchSpan_iff (s : List Char) :
    ∀ n i, s.length - i = n → i ≤ s.length →
      (matchSpan s (.star .dot) i s.length = true ↔ '\n' ∉ s.drop i) := by
  intro n
  induction n with
  | zero =>
    intro i h1 h2
    have hi : i = s.length := by omega
    subst hi
    rw [matchSpan_star_iff]
    simp [List.drop_length]
  | succ n ih =>
    intro i h1 h2
    have hlt : i < s.length := by omega
    have hdrop : s.drop i = s[i] :: s.drop (i + 1) :=
      List.drop_eq_getElem_cons hlt
    have hsi : s[i]? = some s[i] := List.getElem?_eq_getElem hlt
    constructor
    · intro hm
      rw [matchSpan_star_iff] at hm
      rcases hm with heq | ⟨k, hik, hkle, hdot, hrest⟩
      · omega
      · rw [matchSpan, hsi] at hdot
        simp only [ne_eq, Bool.and_eq_true, beq_iff_eq, bne_iff_ne,
          Option.isSome_some, Option.some.injEq] at hdot
        obtain ⟨⟨hk, -⟩, hne⟩ := hdot
        subst hk
        have hrest' := (ih (i + 1) (by omega) hlt).mp hrest
        rw [hdrop]
        intro hmem
        rcases List.mem_cons.mp hmem with hhd | htl
        · exact hne hhd.symm
        · exact hrest' htl
    · intro hnl
      rw [hdrop] at hnl
      rw [matchSpan_star_iff]
      refine Or.inr ⟨i + 1, Nat.lt_succ_self i, hlt, ?_, ?_⟩
      · rw [matchSpan, hsi]
        have hhd : s[i] ≠ '\n' :=
          fun hc => hnl (List.mem_cons.mpr (Or.inl hc.symm))
        simp [hhd]
      · exact (ih (i + 1) (by omega) hlt).mpr
          (fun hm => hnl (List.mem_cons.mpr (Or.inr hm)))

/-- The default pattern `^.*$` matches exactly the strings that contain no
newline (so, in particular, every ordinary account name). -/
theorem reMatch_defaultSpec_iff (s : List Char) :
    reMatch (.cat .anchorA (.cat (.star .dot) .anchorZ)) s = true ↔
      '\n' ∉ s := by
  rw [reMatch_anchored]
  have h := starDot_matchSpan_iff s (s.length - 0) 0 rfl (Nat.zero_le _)
  rw [List.drop_zero] at h
  exact h

/-- As in Go, `^.*$` does not match a text containing a newline: `.` cannot
consume it and `$` matches only the end of the whole text. -/
theorem reMatch_defaultSpec_newline :
    reMatch (.cat .anchorA (.cat (.star .dot) .anchorZ)) "a\nb".toList =
      false :=
  Bool.eq_false_iff.mpr
    (fun hc => (reMatch_defaultSpec_iff "a\nb".toList).mp hc (by decide))

/-! ## Stepping lemmas for `input` -/

/-- When the validator-account and withdrawal stages succeed, `input`
reduces to its remaining stages. -/
theorem input_eq_finish {c : Config} {env : Env} {accts : List Account}
    {creds : List Nat} (hva : c.validatoraccount ≠ "")
    (haccts : env.walletAndAccountsFromPath c.validatoraccount = .ok accts)
    (hne : accts.length ≠ 0)
    (hwc : withdrawalCreds c env = .ok creds) :
    input c env = finishInput c env
      (if c.launchpad then "launchpad" else if c.raw then "raw" else "json")
      accts (setByte0 creds) := by
  unfold input
  rw [if_neg hva, haccts]
  simp only []
  rw [if_neg hne, hwc]

/-- Inversion of a successful run of `input`: every stage succeeded and the
returned record is assembled from the stages' results. -/
theorem input_ok_inv {c : Config} {env : Env} {d : DataIn}
    (h : input c env = .ok d) :
    c.validatoraccount ≠ "" ∧
    ∃ accts creds amount fv,
      env.walletAndAccountsFromPath c.validatoraccount = .ok accts ∧
      accts.length ≠ 0 ∧
      withdrawalCreds c env = .ok creds ∧
      c.depositvalue ≠ "" ∧
      env.stringToGWei c.depositvalue = .ok amount ∧
      ¬ amount < 1000000000 ∧
      resolveForkVersion c env = .ok fv ∧
      d = { format := if c.launchpad then "launchpad"
                      else if c.raw then "raw" else "json"
            withdrawalCredentials := setByte0 creds
            amount := amount
            validatorAccounts := accts
            forkVersion := fv
            domain := computeDomain DomainDeposit fv ZeroGenesisValidatorsRoot } := by
  unfold input at h
  split at h
  · cases h
  next hva =>
    split at h
    next => cases h
    next accts haccts =>
      split at h
      next => cases h
      next hne =>
        simp only [] at h
        split at h
        next => cases h
        next creds hwc =>
          unfold finishInput at h
          split at h
          · cases h
          next hdv =>
            split at h
            next => cases h
            next amount hamt =>
              split at h
              next => cases h
              next hmin =>
                split at h
                next => cases h
                next fv hfv =>
                  refine ⟨hva, accts, creds, amount, fv, haccts, hne, hwc,
                    hdv, hamt, hmin, hfv, ?_⟩
                  cases h
                  rfl

/-- A string extending a prefix whose first character differs from a given
string's first character never equals that string (used to separate the
`errors.Wrap` messages of distinct stages). -/
theorem append_ne_of_take_ne {p q : String} (e : String)
    (h1 : 1 ≤ p.toList.length) (h2 : p.toList.take 1 ≠ q.toList.take 1) :
    p ++ e ≠ q := by
  intro h
  apply h2
  have hd : (p ++ e).toList = p.toList ++ e.toList := String.data_append p e
  calc p.toList.take 1 = (p.toList ++ e.toList).take 1 :=
        (List.take_append_of_le_length h1).symm
    _ = (p ++ e).toList.take 1 := by rw [hd]
    _ = q.toList.take 1 := by rw [h]

theorem setByte0_length (l : List Nat) : (setByte0 l).length = l.length := by
  cases l <;> simp [setByte0]

theorem setByte0_head {l : List Nat} (h : l ≠ []) :
    (setByte0 l).head? = some 0 := by
  cases l with
  | nil => exact absurd rfl h
  | cons a rest => rfl

theorem setByte0_drop (l : List Nat) : (setByte0 l).drop 1 = l.drop 1 := by
  cases l <;> simp [setByte0]

/-- Inversion of a successful withdrawal-credential computation: the
credentials are the SHA-256 of the key obtained by exactly one of the two
modes, the account mode taking the first `switch` case. -/
theorem withdrawalCreds_ok_inv {c : Config} {env : Env} {creds : List Nat}
    (h : withdrawalCreds c env = .ok creds) :
    (c.withdrawalaccount ≠ "" ∧
      ∃ acct pubKey, env.walletAndAccountFromPath c.withdrawalaccount = .ok acct ∧
        bestPublicKey acct = .ok pubKey ∧ creds = sha256 pubKey) ∨
    (c.withdrawalaccount = "" ∧ c.withdrawalpubkey ≠ "" ∧
      ∃ bytes, hexDecode (trim0x c.withdrawalpubkey) = some bytes ∧
        bytes.length = 48 ∧ env.blsPubKeyValid bytes = true ∧
        creds = sha256 bytes) := by
  unfold withdrawalCreds at h
  split at h
  next hwa =>
    left
    refine ⟨hwa, ?_⟩
    split at h
    next => cases h
    next acct hacct =>
      split at h
      next => cases h
      next pubKey hpk =>
        cases h
        exact ⟨acct, pubKey, hacct, hpk, rfl⟩
  next hwa =>
    right
    split at h
    next hwp =>
      refine ⟨by simpa using hwa, hwp, ?_⟩
      split at h
      next => cases h
      next bytes hbytes =>
        split at h
        next => cases h
        next hlen =>
          split at h
          next hbls =>
            cases h
            exact ⟨bytes, hbytes, by omega, hbls, rfl⟩
          next => cases h
    next => cases h

/-- The error messages a failed fork-version resolution can produce. -/
theorem resolveForkVersion_error_inv {c : Config} {env : Env} {e : String}
    (h : resolveForkVersion c env = .error e) :
    e = "failed to decode fork version" ∨
    e = "fork version must be exactly 4 bytes in length" ∨
    (∃ e0, e = "failed to connect to beacon node: " ++ e0) ∨
    (∃ e0, e = "could not connect to beacon node; supply a connection with --connection or provide a fork version with --forkversion to generate deposit data: " ++ e0) ∨
    e = "failed to obtain genesis fork version" := by
  unfold resolveForkVersion at h
  split at h
  · split at h
    · cases h; exact Or.inl rfl
    next fv hfv =>
      split at h
      · cases h; exact Or.inr (Or.inl rfl)
      · cases h
  · split at h
    next e0 hconn =>
      cases h; exact Or.inr (Or.inr (Or.inl ⟨e0, rfl⟩))
    next =>
      split at h
      next e0 hfetch =>
        cases h; exact Or.inr (Or.inr (Or.inr (Or.inl ⟨e0, rfl⟩)))
      next => cases h; exact Or.inr (Or.inr (Or.inr (Or.inr rfl)))
      next => cases h

/-- Inversion of a successful account-path resolution: the result is the
name-sorted selection of the wallet's accounts by the compiled pattern. -/
theorem walletAndAccountsFromPath_ok_inv {wallet : Wallet} {path : String}
    {accounts : List Account}
    (h : walletAndAccountsFromPath wallet path = .ok accounts) :
    ∃ wn spec re, walletAndAccountNames path = .ok (wn, spec) ∧
      compileRegex (specPattern spec) = some re ∧
      accounts = sortByName (wallet.accounts.filter fun account =>
        reMatch re account.name.toList) := by
  unfold walletAndAccountsFromPath at h
  split at h
  next => cases h
  next wn spec hnames =>
    split at h
    next => cases h
    next re hre =>
      cases h
      exact ⟨wn, spec, re, hnames, hre, rfl⟩

theorem computeDomain_length (fv g : List Nat) :
    (computeDomain DomainDeposit fv g).length = 32 := by
  simp [computeDomain, DomainDeposit, forkDataRoot, List.length_take, sha256_length]

/-- A path with an empty account part selects exactly the accounts whose
names contain no newline, sorted: the default pattern `^.*$` matches a name
precisely when `.` never has to cross a newline.  For the ordinary wallet
whose account names are newline-free this is every account. -/
theorem walletAndAccountsFromPath_emptySpec {wallet : Wallet} {path wn : String}
    (h : walletAndAccountNames path = .ok (wn, "")) :
    walletAndAccountsFromPath wallet path =
      .ok (sortByName (wallet.accounts.filter fun account =>
        decide ('\n' ∉ account.name.toList))) := by
  unfold walletAndAccountsFromPath
  rw [h]
  simp only []
  rw [show compileRegex (specPattern "") =
        some (.cat .anchorA (.cat (.star .dot) .anchorZ)) from rfl]
  simp only []
  have hpt : ∀ a ∈ wallet.accounts,
      reMatch (.cat .anchorA (.cat (.star .dot) .anchorZ)) a.name.toList =
        decide ('\n' ∉ a.name.toList) := by
    intro a _
    by_cases hm : '\n' ∈ a.name.toList
    · have h1 : reMatch (.cat .anchorA (.cat (.star .dot) .anchorZ))
          a.name.toList = false :=
        Bool.eq_false_iff.mpr
          (fun hc => (reMatch_defaultSpec_iff a.name.toList).mp hc hm)
      rw [h1, decide_eq_false (not_not_intro hm)]
    · have h1 := (reMatch_defaultSpec_iff a.name.toList).mpr hm
      rw [h1, decide_eq_true hm]
  rw [List.filter_congr hpt]

/-! ## Claim theorems -/

/-- Claim C7. For every account, `bestPublicKey` returns the composite public key
when the account exposes that capability, else the plain public key when
exposed, and otherwise fails with the no-public-key error; the preference
order is always composite before plain. -/
theorem claim7_bestPublicKey_preference (account : Account) :
    (∀ k, account.compositePublicKey = some k → bestPublicKey account = .ok k) ∧
    (account.compositePublicKey = none →
      ∀ k, account.publicKey = some k → bestPublicKey account = .ok k) ∧
    (account.compositePublicKey = none → account.publicKey = none →
      bestPublicKey account = .error "account does not provide a public key") :=
  ⟨fun k hk => by unfold bestPublicKey; rw [hk],
   fun hn k hk => by unfold bestPublicKey; rw [hn, hk],
   fun hn hp => by unfold bestPublicKey; rw [hn, hp]⟩

/-- Witness for C7 at three concrete accounts covering the three cases. -/
theorem claim7_witness :
    bestPublicKey ⟨"x", some [1], some [2]⟩ = .ok [1] ∧
    bestPublicKey ⟨"x", none, some [2]⟩ = .ok [2] ∧
    bestPublicKey ⟨"x", none, none⟩ =
      .error "account does not provide a public key" :=
  ⟨(claim7_bestPublicKey_preference ⟨"x", some [1], some [2]⟩).1 [1] rfl,
   (claim7_bestPublicKey_preference ⟨"x", none, some [2]⟩).2.1 rfl [2] rfl,
   (claim7_bestPublicKey_preference ⟨"x", none, none⟩).2.2 rfl rfl⟩

/-- Claim C9. If the validator-account path resolves to zero accounts, `input`
fails with the unknown-validator-account error; and every successful run of
`input` carries a non-empty validator-account list. -/
theorem claim9_no_empty_batch (c : Config) (env : Env) :
    (c.validatoraccount ≠ "" →
      env.walletAndAccountsFromPath c.validatoraccount = .ok [] →
      input c env = .error "unknown validator account") ∧
    (∀ d, input c env = .ok d → d.validatorAccounts ≠ []) := by
  constructor
  · intro hva haccts
    unfold input
    rw [if_neg hva, haccts]
    simp
  · intro d h
    obtain ⟨-, accts, creds, amount, fv, -, hne, -, -, -, -, -, hd⟩ :=
      input_ok_inv h
    subst hd
    simpa [← List.length_eq_zero] using hne

/-- Claim C6. The domain assembled by a successful run of `input` is the pure
function `computeDomain` of the deposit domain type and the run's fork
version, with the genesis validators root fixed to the zero root; it is 32
bytes, and any two successful runs with the same fork version produce the
same domain (no hidden state). -/
theorem claim6_domain_deterministic (c : Config) (env : Env) (d : DataIn)
    (h : input c env = .ok d) :
    d.domain = computeDomain DomainDeposit d.forkVersion ZeroGenesisValidatorsRoot ∧
    d.domain.length = 32 ∧
    (∀ c2 env2 d2, input c2 env2 = .ok d2 → d2.forkVersion = d.forkVersion →
      d2.domain = d.domain) := by
  obtain ⟨-, accts, creds, amount, fv, -, -, -, -, -, -, -, hd⟩ := input_ok_inv h
  subst hd
  refine ⟨rfl, computeDomain_length _ _, ?_⟩
  intro c2 env2 d2 h2 hfv
  obtain ⟨-, accts2, creds2, amount2, fv2, -, -, -, -, -, -, -, hd2⟩ :=
    input_ok_inv h2
  subst hd2
  simp only [] at hfv ⊢
  rw [hfv]

/-- Claim C1. Whenever the withdrawal key is a 48-byte key `P` obtained either
from a resolvable withdrawal account or from the supplied hex string, a
successful run of `input` produces withdrawal credentials of exactly 32
bytes whose byte 0 is the BLS withdrawal prefix `0x00` and whose bytes
1..31 are bytes 1..31 of `sha256 P`. -/
theorem claim1_withdrawal_credentials (c : Config) (env : Env)
    (P : List Nat) (d : DataIn)
    (hmode :
      (c.withdrawalaccount ≠ "" ∧
        ∃ acct, env.walletAndAccountFromPath c.withdrawalaccount = .ok acct ∧
          bestPublicKey acct = .ok P) ∨
      (c.withdrawalaccount = "" ∧
        hexDecode (trim0x c.withdrawalpubkey) = some P))
    (_hlen : P.length = 48)
    (h : input c env = .ok d) :
    d.withdrawalCredentials.length = 32 ∧
    d.withdrawalCredentials.head? = some 0 ∧
    d.withdrawalCredentials.drop 1 = (sha256 P).drop 1 := by
  obtain ⟨-, accts, creds, amount, fv, -, -, hwc, -, -, -, -, hd⟩ := input_ok_inv h
  have hcreds : creds = sha256 P := by
    rcases withdrawalCreds_ok_inv hwc with
      ⟨hwa, acct, pubKey, hacct, hpk, hcr⟩ | ⟨hwa, -, bytes, hbytes, -, -, hcr⟩
    · rcases hmode with ⟨-, acct', hacct', hpk'⟩ | ⟨hwa', -⟩
      · rw [hacct'] at hacct
        cases hacct
        rw [hpk'] at hpk
        cases hpk
        exact hcr
      · exact absurd hwa' hwa
    · rcases hmode with ⟨hwa', -⟩ | ⟨-, hbytes'⟩
      · exact absurd hwa hwa'
      · rw [hbytes'] at hbytes
        cases hbytes
        exact hcr
  subst hd hcreds
  have hne : sha256 P ≠ [] := by
    intro hnil
    have := sha256_length P
    rw [hnil] at this
    cases this
  exact ⟨by simp only []; rw [setByte0_length, sha256_length],
    by simp only []; rw [setByte0_head hne],
    by simp only []; rw [setByte0_drop]⟩

/-- Claim C8. The account list returned by `walletAndAccountsFromPath` is sorted
in ascending order by account name, and its name sequence does not depend on
the order in which the wallet yields its accounts. -/
theorem claim8_sorted_output (wallet : Wallet) (path : String)
    (accounts : List Account)
    (h : walletAndAccountsFromPath wallet path = .ok accounts) :
    List.Sorted nameLe accounts ∧
    (∀ (wallet2 : Wallet) (accounts2 : List Account),
      wallet2.accounts.Perm wallet.accounts →
      walletAndAccountsFromPath wallet2 path = .ok accounts2 →
      accounts2.map Account.name = accounts.map Account.name) := by
  obtain ⟨wn, spec, re, hnames, hre, hacc⟩ := walletAndAccountsFromPath_ok_inv h
  subst hacc
  refine ⟨sortByName_sorted _, ?_⟩
  intro wallet2 accounts2 hperm h2
  obtain ⟨wn2, spec2, re2, hnames2, hre2, hacc2⟩ :=
    walletAndAccountsFromPath_ok_inv h2
  rw [hnames] at hnames2
  cases hnames2
  rw [hre] at hre2
  cases hre2
  subst hacc2
  refine @List.eq_of_perm_of_sorted String strLe _ _ _ ?_ ?_ ?_
  · exact List.Perm.map _
      ((sortByName_perm _).trans ((hperm.filter _).trans (sortByName_perm _).symm))
  · rw [List.Sorted, List.pairwise_map]
    exact sortByName_sorted _
  · rw [List.Sorted, List.pairwise_map]
    exact sortByName_sorted _

/-! ## Concrete fixtures for witnesses and counterexamples -/

/-- A validator account named `A`. -/
def acctA : Account := ⟨"A", none, some (List.replicate 48 1)⟩

/-- A validator account named `B`. -/
def acctB : Account := ⟨"B", none, some (List.replicate 48 2)⟩

/-- A withdrawal account. -/
def acctW : Account := ⟨"Withdrawal", none, some (List.replicate 48 3)⟩

/-- A concrete environment in which every collaborator succeeds. -/
def testEnv : Env :=
  { walletAndAccountsFromPath := fun _ => .ok [acctA]
    walletAndAccountFromPath := fun _ => .ok acctW
    blsPubKeyValid := fun _ => true
    stringToGWei := fun s =>
      if s = "32" then .ok 32000000000
      else if s = "1" then .ok 1000000000
      else if s = "0.9" then .ok 900000000
      else .error "failed to parse ether value"
    connect := .ok ()
    fetchChainConfig := .ok (some [0, 0, 0, 32]) }

/-- Witness for C8: a wallet yielding `B` before `A`, a path with an empty
account part; the theorem yields sortedness of the returned list. -/
theorem claim8_witness :
    List.Sorted nameLe [acctA, acctB] ∧
    [acctA, acctB].map Account.name = ["A", "B"] := by
  have h : walletAndAccountsFromPath ⟨[acctB, acctA]⟩ "Wallet" =
      .ok [acctA, acctB] := by
    rw [@walletAndAccountsFromPath_emptySpec ⟨[acctB, acctA]⟩ "Wallet" "Wallet"
      (by decide)]
    decide
  exact ⟨(claim8_sorted_output ⟨[acctB, acctA]⟩ "Wallet" [acctA, acctB] h).1,
    by decide⟩

/-- Claim C10 (counterexample). The account part `a|b`, textually wrapped to
`^a|b$`, selects the account named `ab` although `a|b` does not match the
entire name `ab`: the anchors attach only to the outermost alternatives. -/
theorem claim10_counterexample :
    walletAndAccountsFromPath ⟨[⟨"ab", none, none⟩]⟩ "w/a|b" =
      .ok [⟨"ab", none, none⟩] ∧
    compileRegex "a|b" = some (.alt (.chr 'a') (.chr 'b')) ∧
    fullMatch (.alt (.chr 'a') (.chr 'b')) "ab".toList = false := by
  have hm : reMatch (.alt (.cat .anchorA (.chr 'a')) (.cat (.chr 'b') .anchorZ))
      "ab".toList = true := by
    unfold reMatch
    simp only [List.any_eq_true, List.mem_range]
    refine ⟨0, by decide, 1, by decide, ?_⟩
    rw [matchSpan, Bool.or_eq_true]
    left
    rw [matchSpan_cat_iff]
    refine ⟨0, by omega, ?_, ?_⟩
    · rw [matchSpan_anchorA_iff]; exact ⟨rfl, rfl⟩
    · rw [matchSpan]; decide
  refine ⟨?_, rfl, ?_⟩
  · unfold walletAndAccountsFromPath
    rw [show walletAndAccountNames "w/a|b" = .ok ("w", "a|b") from rfl]
    simp only []
    rw [show compileRegex (specPattern "a|b") =
          some (.alt (.cat .anchorA (.chr 'a')) (.cat (.chr 'b') .anchorZ))
        from rfl]
    simp only [List.filter_cons, List.filter_nil, hm]
    decide
  · simp only [fullMatch, matchSpan]
    decide

/-- Claim C10 (amended). The account part is matched by textually wrapping it in
`^` and `$`; since alternation has the lowest precedence the anchors attach
to the outermost alternatives (so a part with a top-level `|` can select a
name it does not entirely match); a pattern anchored around its whole body
selects exactly the names it matches entirely; and a path with an empty
account part defaults to `^.*$`, which selects exactly the accounts whose
names contain no newline (Go's `.` does not match a newline) — every
account of an ordinary, newline-free wallet. -/
theorem claim10_anchoring :
    (∀ spec : String, spec ≠ "" → specPattern spec = "^" ++ spec ++ "$") ∧
    (∀ (r : Regex) (s : List Char),
      reMatch (.cat .anchorA (.cat r .anchorZ)) s = fullMatch r s) ∧
    (∀ (wallet : Wallet) (path wn : String) (accounts : List Account),
      walletAndAccountNames path = .ok (wn, "") →
      walletAndAccountsFromPath wallet path = .ok accounts →
      accounts.Perm (wallet.accounts.filter fun account =>
        decide ('\n' ∉ account.name.toList))) := by
  refine ⟨?_, reMatch_anchored, ?_⟩
  · intro spec h; unfold specPattern; rw [if_neg h]
  · intro wallet path wn accounts hnames h
    rw [walletAndAccountsFromPath_emptySpec hnames] at h
    cases h
    exact sortByName_perm _

/-- Witness for C10 at concrete inputs: textual wrapping of `a|b`, the
anchored full-match equivalence on a concrete pattern and text, and an
account-less path selecting the (newline-free) accounts of a wallet. -/
theorem claim10_witness :
    specPattern "a|b" = "^a|b$" ∧
    reMatch (.cat .anchorA (.cat (.chr 'a') .anchorZ)) "ab".toList =
      fullMatch (.chr 'a') "ab".toList ∧
    List.Perm [acctA] (List.filter (fun account =>
      decide ('\n' ∉ account.name.toList)) [acctA]) :=
  ⟨claim10_anchoring.1 "a|b" (by decide),
   claim10_anchoring.2.1 (.chr 'a') "ab".toList,
   claim10_anchoring.2.2 ⟨[acctA]⟩ "Wallet" "Wallet" [acctA] (by decide)
     (by rw [@walletAndAccountsFromPath_emptySpec ⟨[acctA]⟩ "Wallet" "Wallet"
               (by decide)]
         decide)⟩

/-! ## Concrete configurations -/

/-- Both a withdrawal account and a withdrawal public key are supplied,
everything else is valid.  The public key decodes to only 4 bytes, so it
would be rejected by the 48-byte length check if it were ever used. -/
def cfgBoth : Config :=
  ⟨"Wallet/A", false, false, "Wallet/Withdrawal", "0xdeadbeef", "32", "0x01020304"⟩

/-- Neither withdrawal mode is supplied. -/
def cfgNeither : Config :=
  ⟨"Wallet/A", false, false, "", "", "32", "0x01020304"⟩

/-- Deposit value of exactly one Ether (the minimum boundary). -/
def cfgBoundary : Config :=
  ⟨"Wallet/A", false, false, "Wallet/Withdrawal", "", "1", "0x01020304"⟩

/-- Deposit value below one Ether. -/
def cfgLow : Config :=
  ⟨"Wallet/A", false, false, "Wallet/Withdrawal", "", "0.9", "0x01020304"⟩

/-- A 3-byte fork version. -/
def cfgShortFork : Config :=
  ⟨"Wallet/A", false, false, "Wallet/Withdrawal", "", "32", "0x010203"⟩

/-- No fork version: the chain must be queried. -/
def cfgNoFork : Config :=
  ⟨"Wallet/A", false, false, "Wallet/Withdrawal", "", "32", ""⟩

/-- An environment with no working beacon-node connection. -/
def envNoConn : Env :=
  { testEnv with connect := .error "no connection" }

/-- An environment whose chain-config fetch fails after connecting. -/
def envNoFetch : Env :=
  { testEnv with fetchChainConfig := .error "context deadline exceeded" }

/-- An environment in which the validator path matches no accounts. -/
def envEmptyAccts : Env :=
  { testEnv with walletAndAccountsFromPath := fun _ => .ok [] }

/-- The record `input` produces for `cfgBoth` under `testEnv`: credentials
are `sha256` of `acctW`'s public key with byte 0 forced to `0x00`. -/
def dBoth : DataIn :=
  { format := "json"
    withdrawalCredentials :=
      [0, 143, 157, 95, 20, 243, 99, 0, 40, 174, 113, 185, 33, 42, 105, 7,
       154, 187, 173, 130, 229, 15, 110, 45, 72, 219, 91, 160, 197, 181, 10, 92]
    amount := 32000000000
    validatorAccounts := [acctA]
    forkVersion := [1, 2, 3, 4]
    domain :=
      [3, 0, 0, 0, 255, 210, 252, 52, 229, 121, 106, 100, 63, 116, 155, 11,
       43, 144, 140, 76, 163, 206, 88, 206, 36, 160, 12, 73, 50, 154, 45, 192] }

/-- The record `input` produces for `cfgBoundary` under `testEnv` (deposit
of exactly the minimum amount). -/
def dBoundary : DataIn :=
  { dBoth with amount := 1000000000 }

/-! ## C2: withdrawal-specification selection -/

/-- Claim C2 (counterexample). With __both__ a withdrawal account and a withdrawal
public key supplied, `input` does not fail with the ambiguous-or-missing
error: the account takes precedence and the run succeeds (the supplied
public key, which would fail the 48-byte length check, is never looked
at). -/
theorem claim2_counterexample :
    cfgBoth.withdrawalaccount ≠ "" ∧ cfgBoth.withdrawalpubkey ≠ "" ∧
    input cfgBoth testEnv = .ok dBoth :=
  ⟨by decide, by decide, by decide⟩

/-- Claim C2 (amended). `input` fails with the missing-withdrawal-spec error when
neither a withdrawal account nor a withdrawal public key is given (before
any signing can occur); when both are given, the withdrawal account takes
precedence and the raw public key is ignored (no error is raised for the
ambiguity). -/
theorem claim2_withdrawal_spec (env : Env) :
    (∀ (c : Config) (accts : List Account),
      c.withdrawalaccount = "" → c.withdrawalpubkey = "" →
      c.validatoraccount ≠ "" →
      env.walletAndAccountsFromPath c.validatoraccount = .ok accts →
      accts.length ≠ 0 →
      input c env =
        .error "withdrawalaccount or withdrawal public key is required") ∧
    (∀ va lp rf wa wp dv fv, wa ≠ "" →
      input ⟨va, lp, rf, wa, wp, dv, fv⟩ env =
        input ⟨va, lp, rf, wa, "", dv, fv⟩ env) := by
  constructor
  · intro c accts hwa hwp hva haccts hne
    have hwcErr : withdrawalCreds c env =
        .error "withdrawalaccount or withdrawal public key is required" := by
      unfold withdrawalCreds
      rw [if_neg (by simp [hwa]), if_neg (by simp [hwp])]
    unfold input
    rw [if_neg hva, haccts]
    simp only []
    rw [if_neg hne, hwcErr]
  · intro va lp rf wa wp dv fv hwa
    have hwc : withdrawalCreds ⟨va, lp, rf, wa, wp, dv, fv⟩ env =
        withdrawalCreds ⟨va, lp, rf, wa, "", dv, fv⟩ env := by
      unfold withdrawalCreds
      rw [if_pos hwa, if_pos hwa]
    have hfin : ∀ f a w, finishInput ⟨va, lp, rf, wa, wp, dv, fv⟩ env f a w =
        finishInput ⟨va, lp, rf, wa, "", dv, fv⟩ env f a w := fun _ _ _ => rfl
    unfold input
    rw [hwc]
    simp only [hfin]

/-- Witness for C2 (amended) at concrete inputs: the missing-spec failure,
and the both-given run coinciding with the account-only run. -/
theorem claim2_witness :
    input cfgNeither testEnv =
      .error "withdrawalaccount or withdrawal public key is required" ∧
    input cfgBoth testEnv =
      input ⟨"Wallet/A", false, false, "Wallet/Withdrawal", "", "32",
             "0x01020304"⟩ testEnv :=
  ⟨(claim2_withdrawal_spec testEnv).1 cfgNeither [acctA] rfl rfl (by decide)
      rfl (by decide),
   (claim2_withdrawal_spec testEnv).2 "Wallet/A" false false "Wallet/Withdrawal"
      "0xdeadbeef" "32" "0x01020304" (by decide)⟩

/-! ## C3: minimum-deposit boundary -/

set_option maxRecDepth 4000 in
/-- Claim C3. When the earlier stages succeed and the deposit-value string parses
to `amount` Gwei, `input` returns the below-minimum error exactly when
`amount < 1000000000`; the boundary itself is accepted. -/
theorem claim3_minimum_boundary (c : Config) (env : Env)
    (accts : List Account) (creds : List Nat) (amount : Nat)
    (hva : c.validatoraccount ≠ "")
    (haccts : env.walletAndAccountsFromPath c.validatoraccount = .ok accts)
    (hne : accts.length ≠ 0)
    (hwc : withdrawalCreds c env = .ok creds)
    (hdv : c.depositvalue ≠ "")
    (hamt : env.stringToGWei c.depositvalue = .ok amount) :
    (input c env = .error "deposit value must be at least 1 Ether" ↔
      amount < 1000000000) := by
  rw [input_eq_finish hva haccts hne hwc]
  unfold finishInput
  rw [if_neg hdv, hamt]
  simp only []
  by_cases hmin : amount < 1000000000
  · rw [if_pos hmin]
    simp [hmin]
  · rw [if_neg hmin]
    simp only [hmin, iff_false]
    cases hfv : resolveForkVersion c env with
    | error e =>
      simp only []
      intro hcontra
      injection hcontra with he
      rcases resolveForkVersion_error_inv hfv with
        h1 | h1 | ⟨e0, h1⟩ | ⟨e0, h1⟩ | h1 <;> subst h1
      · exact absurd he (by decide)
      · exact absurd he (by decide)
      · exact append_ne_of_take_ne e0 (by decide) (by decide) he
      · exact append_ne_of_take_ne e0 (by decide) (by decide) he
      · exact absurd he (by decide)
    | ok fv => simp

/-- Witness for C3 at the boundary: a deposit of exactly 1000000000 Gwei is
not rejected, and one of 900000000 Gwei is. -/
theorem claim3_witness :
    ¬ (input cfgBoundary testEnv =
        .error "deposit value must be at least 1 Ether") ∧
    input cfgLow testEnv = .error "deposit value must be at least 1 Ether" := by
  constructor
  · intro h
    exact absurd
      ((claim3_minimum_boundary cfgBoundary testEnv [acctA]
          (sha256 (List.replicate 48 3)) 1000000000 (by decide) rfl (by decide)
          (by decide) (by decide) rfl).mp h)
      (by decide)
  · exact (claim3_minimum_boundary cfgLow testEnv [acctA]
        (sha256 (List.replicate 48 3)) 900000000 (by decide) rfl (by decide)
        (by decide) (by decide) rfl).mpr (by decide)

/-! ## C4: fork-version length -/

/-- Claim C4. When a fork version is supplied explicitly and the earlier stages
succeed, a decoded byte string that is not exactly 4 bytes yields the
invalid-length error; and on success the resolved fork version is exactly
the decoded byte string (4 bytes), never truncated or padded. -/
theorem claim4_forkversion_length (c : Config) (env : Env)
    (accts : List Account) (creds : List Nat) (amount : Nat) (bytes : List Nat)
    (hva : c.validatoraccount ≠ "")
    (haccts : env.walletAndAccountsFromPath c.validatoraccount = .ok accts)
    (hne : accts.length ≠ 0)
    (hwc : withdrawalCreds c env = .ok creds)
    (hdv : c.depositvalue ≠ "")
    (hamt : env.stringToGWei c.depositvalue = .ok amount)
    (hmin : ¬ amount < 1000000000)
    (hfv : c.forkversion ≠ "")
    (hdec : hexDecode (trim0x c.forkversion) = some bytes) :
    (bytes.length ≠ 4 →
      input c env = .error "fork version must be exactly 4 bytes in length") ∧
    (∀ d, input c env = .ok d →
      d.forkVersion = bytes ∧ d.forkVersion.length = 4) := by
  constructor
  · intro hlen
    rw [input_eq_finish hva haccts hne hwc]
    unfold finishInput
    rw [if_neg hdv, hamt]
    simp only []
    rw [if_neg hmin]
    have hr : resolveForkVersion c env =
        .error "fork version must be exactly 4 bytes in length" := by
      unfold resolveForkVersion
      rw [if_pos hfv, hdec]
      simp only []
      rw [if_pos hlen]
    rw [hr]
  · intro d hok
    obtain ⟨-, accts', creds', amount', fv', -, -, -, -, -, -, hfvr, hd⟩ :=
      input_ok_inv hok
    unfold resolveForkVersion at hfvr
    rw [if_pos hfv, hdec] at hfvr
    simp only [] at hfvr
    split at hfvr
    next => cases hfvr
    next hlen4 =>
      cases hfvr
      subst hd
      exact ⟨rfl, not_not.mp hlen4⟩

/-- Witness for C4: a 3-byte fork version `0x010203` is rejected with the
exact error, and the successful `0x01020304` run carries `[1, 2, 3, 4]`. -/
theorem claim4_witness :
    input cfgShortFork testEnv =
      .error "fork version must be exactly 4 bytes in length" ∧
    dBoth.forkVersion = [1, 2, 3, 4] ∧ dBoth.forkVersion.length = 4 :=
  ⟨(claim4_forkversion_length cfgShortFork testEnv [acctA]
      (sha256 (List.replicate 48 3)) 32000000000 [1, 2, 3] (by decide) rfl
      (by decide) (by decide) (by decide) rfl (by decide) (by decide)
      (by decide)).1 (by decide),
   (claim4_forkversion_length cfgBoth testEnv [acctA]
      (sha256 (List.replicate 48 3)) 32000000000 [1, 2, 3, 4] (by decide) rfl
      (by decide) (by decide) (by decide) rfl (by decide) (by decide)
      (by decide)).2 dBoth (by decide)⟩

/-! ## C5: fork-version resolution paths -/

/-- Claim C5. Fork-version resolution has two mutually exclusive paths with the
explicit value taking precedence: with an explicit fork version the result
of `input` does not depend on the chain collaborators (`grpc.Connect`,
`grpc.FetchChainConfig`) at all; without one, a failed connection yields the
connection error, and a failed chain-config fetch yields the error advising
either a connection or an explicit fork version. -/
theorem claim5_forkversion_resolution :
    (∀ (c : Config)
       (w1 : String → Except String (List Account))
       (w2 : String → Except String Account)
       (bls : List Nat → Bool)
       (s2g : String → Except String Nat)
       (co co' : Except String Unit)
       (fc fc' : Except String (Option (List Nat))),
      c.forkversion ≠ "" →
      input c ⟨w1, w2, bls, s2g, co, fc⟩ = input c ⟨w1, w2, bls, s2g, co', fc'⟩) ∧
    (∀ (c : Config) (env : Env) (accts : List Account) (creds : List Nat)
       (amount : Nat) (e : String),
      c.validatoraccount ≠ "" →
      env.walletAndAccountsFromPath c.validatoraccount = .ok accts →
      accts.length ≠ 0 →
      withdrawalCreds c env = .ok creds →
      c.depositvalue ≠ "" →
      env.stringToGWei c.depositvalue = .ok amount →
      ¬ amount < 1000000000 →
      c.forkversion = "" →
      env.connect = .error e →
      input c env = .error ("failed to connect to beacon node: " ++ e)) ∧
    (∀ (c : Config) (env : Env) (accts : List Account) (creds : List Nat)
       (amount : Nat) (e : String),
      c.validatoraccount ≠ "" →
      env.walletAndAccountsFromPath c.validatoraccount = .ok accts →
      accts.length ≠ 0 →
      withdrawalCreds c env = .ok creds →
      c.depositvalue ≠ "" →
      env.stringToGWei c.depositvalue = .ok amount →
      ¬ amount < 1000000000 →
      c.forkversion = "" →
      env.connect = .ok () →
      env.fetchChainConfig = .error e →
      input c env = .error ("could not connect to beacon node; supply a connection with --connection or provide a fork version with --forkversion to generate deposit data: " ++ e)) := by
  refine ⟨?_, ?_, ?_⟩
  · intro c w1 w2 bls s2g co co' fc fc' hfv
    have h1 : resolveForkVersion c ⟨w1, w2, bls, s2g, co, fc⟩ =
        resolveForkVersion c ⟨w1, w2, bls, s2g, co', fc'⟩ := by
      unfold resolveForkVersion
      rw [if_pos hfv, if_pos hfv]
    have h2 : ∀ f a w, finishInput c ⟨w1, w2, bls, s2g, co, fc⟩ f a w =
        finishInput c ⟨w1, w2, bls, s2g, co', fc'⟩ f a w := by
      intro f a w
      unfold finishInput
      rw [h1]
    have h3 : withdrawalCreds c ⟨w1, w2, bls, s2g, co, fc⟩ =
        withdrawalCreds c ⟨w1, w2, bls, s2g, co', fc'⟩ := rfl
    unfold input
    rw [h3]
    simp only [h2]
  · intro c env accts creds amount e hva haccts hne hwc hdv hamt hmin hfv hconn
    rw [input_eq_finish hva haccts hne hwc]
    unfold finishInput
    rw [if_neg hdv, hamt]
    simp only []
    rw [if_neg hmin]
    have hr : resolveForkVersion c env =
        .error ("failed to connect to beacon node: " ++ e) := by
      unfold resolveForkVersion
      rw [if_neg (by simp [hfv]), hconn]
    rw [hr]
  · intro c env accts creds amount e hva haccts hne hwc hdv hamt hmin hfv
      hconn hfetch
    rw [input_eq_finish hva haccts hne hwc]
    unfold finishInput
    rw [if_neg hdv, hamt]
    simp only []
    rw [if_neg hmin]
    have hr : resolveForkVersion c env =
        .error ("could not connect to beacon node; supply a connection with --connection or provide a fork version with --forkversion to generate deposit data: " ++ e) := by
      unfold resolveForkVersion
      rw [if_neg (by simp [hfv]), hconn]
      simp only []
      rw [hfetch]
    rw [hr]

/-- Witness for C5 at concrete inputs: with an explicit fork version the
run is unchanged under broken chain collaborators; without one, the two
chain-failure errors surface. -/
theorem claim5_witness :
    input cfgBoth testEnv =
      input cfgBoth { testEnv with connect := .error "boom"
                                   fetchChainConfig := .error "boom" } ∧
    input cfgNoFork envNoConn =
      .error ("failed to connect to beacon node: " ++ "no connection") ∧
    input cfgNoFork envNoFetch =
      .error ("could not connect to beacon node; supply a connection with --connection or provide a fork version with --forkversion to generate deposit data: " ++ "context deadline exceeded") :=
  ⟨claim5_forkversion_resolution.1 cfgBoth
      testEnv.walletAndAccountsFromPath testEnv.walletAndAccountFromPath
      testEnv.blsPubKeyValid testEnv.stringToGWei
      testEnv.connect (.error "boom") testEnv.fetchChainConfig (.error "boom")
      (by decide),
   claim5_forkversion_resolution.2.1 cfgNoFork envNoConn [acctA]
      (sha256 (List.replicate 48 3)) 32000000000 "no connection" (by decide)
      rfl (by decide) (by decide) (by decide) rfl (by decide) (by decide) rfl,
   claim5_forkversion_resolution.2.2 cfgNoFork envNoFetch [acctA]
      (sha256 (List.replicate 48 3)) 32000000000 "context deadline exceeded"
      (by decide) rfl (by decide) (by decide) (by decide) rfl (by decide)
      (by decide) rfl rfl⟩

/-- Witness for C9: a resolvable path matching zero accounts fails with the
unknown-validator-account error, and a successful run's account list is
non-empty. -/
theorem claim9_witness :
    input cfgNoFork envEmptyAccts = .error "unknown validator account" ∧
    dBoth.validatorAccounts ≠ [] :=
  ⟨(claim9_no_empty_batch cfgNoFork envEmptyAccts).1 (by decide) rfl,
   (claim9_no_empty_batch cfgBoth testEnv).2 dBoth (by decide)⟩

/-- Witness for C6: the domain of the concrete successful run, and
agreement with a second run sharing the fork version. -/
theorem claim6_witness :
    dBoth.domain =
      computeDomain DomainDeposit dBoth.forkVersion ZeroGenesisValidatorsRoot ∧
    dBoth.domain.length = 32 ∧
    dBoundary.domain = dBoth.domain := by
  have h := claim6_domain_deterministic cfgBoth testEnv dBoth (by decide)
  exact ⟨h.1, h.2.1, h.2.2 cfgBoundary testEnv dBoundary (by decide) (by decide)⟩

/-- Witness for C1: the concrete successful run's credentials are 32 bytes,
start with the zero prefix byte, and agree with `sha256` of `acctW`'s key
from byte 1 on. -/
theorem claim1_witness :
    dBoth.withdrawalCredentials.length = 32 ∧
    dBoth.withdrawalCredentials.head? = some 0 ∧
    dBoth.withdrawalCredentials.drop 1 =
      (sha256 (List.replicate 48 3)).drop 1 :=
  claim1_withdrawal_credentials cfgBoth testEnv (List.replicate 48 3) dBoth
    (Or.inl ⟨by decide, acctW, rfl, rfl⟩) (by decide) (by decide)

end Ethdo

